import Mathlib

/-!
Verification development for the wbot-server engine core (`src/bot.go` and the
HTTP server sources). The Go code is shallowly embedded: pure logic becomes
Lean functions, subprocess and channel effects become explicit oracles and a
small-step relation, and Go `error` values become a datatype of dynamic error
types. Every definition is translated from the repository sources; doc
comments name the function embedded.
-/

namespace Wbot

/-- Dynamic type and content of a Go `error` value as produced by the code in
`src/bot.go`. `errorString` is the result of `fmt.Errorf`/`errors.New` (dynamic
type `*errors.errorString`); `statError` an `os.Stat` failure; `pipeError` a
`StdoutPipe` failure; `startError` a `cmd.Start` failure; `decodeError` a
`json` decode failure (the flag marks input that ended before the value was
complete); `exitError` a non-zero exit reported by `cmd.Wait`
(`*exec.ExitError`); `killedError` the `*exec.ExitError` produced when the
`CommandContext` deadline kills the process; `timeoutError` a value of the
`TimeoutError` type that `internalError` in the server source tests for with
the type assertion `err.(TimeoutError)`. -/
inductive GoError where
  | errorString (msg : String)
  | statError
  | pipeError
  | startError
  | decodeError (unexpectedEOF : Bool)
  | exitError (code : Int)
  | killedError
  | timeoutError
  deriving DecidableEq

/-- Modelled from the spec: the server's `internalError` handler (server
source, `src/unnamed/part_000`) classifies a failure as a timeout with the
type assertion `_, ok := err.(TimeoutError)`; the declaration of the
`TimeoutError` type itself is not among the provided sources. An error is
Timeout-classified exactly when its dynamic type is `TimeoutError`. -/
def isTimeoutTyped : GoError → Bool
  | .timeoutError => true
  | _ => false

/-- JSON document tree, the decoding target of `json.NewDecoder(...).Decode`
in `execAtom` (src/bot.go). Number values keep their source literal; no claim
depends on numeric value semantics. -/
inductive Json where
  | null
  | bool (b : Bool)
  | num (lit : List Char)
  | str (s : List Char)
  | arr (elems : List Json)
  | obj (fields : List (List Char × Json))

/-- Whitespace characters skipped by the JSON decoder. -/
def isWS (c : Char) : Bool :=
  c = ' ' || c = '\n' || c = '\t' || c = '\r'

def skipWS (l : List Char) : List Char :=
  l.dropWhile isWS

/-- Characters that may make up a JSON number literal. -/
def numChar (c : Char) : Bool :=
  c.isDigit || c = '-' || c = '.' || c = 'e' || c = 'E' || c = '+'

/-- Parse a JSON number literal. -/
def parseNum (l : List Char) : Except Bool (Json × List Char) :=
  match l.takeWhile numChar with
  | [] => .error false
  | lit => .ok (.num lit, l.dropWhile numChar)

/-- Parse the remainder of a JSON string after the opening quote. Escape
sequences are not exercised by any claim and are treated as plain characters. -/
def parseStringRest : List Char → Except Bool (List Char × List Char)
  | [] => .error true
  | '"' :: rest => .ok ([], rest)
  | c :: rest =>
    match parseStringRest rest with
    | .error b => .error b
    | .ok (s, r) => .ok (c :: s, r)

mutual

/-- Model of decoding one JSON value from a character stream, as
`(*json.Decoder).Decode` does in `execAtom` (src/bot.go). The error flag is
`true` when the input ended before the value was complete (Go
`io.ErrUnexpectedEOF`), `false` on a syntax error. Fuel bounds the recursion
depth. -/
def parseVal : Nat → List Char → Except Bool (Json × List Char)
  | 0, _ => .error true
  | fuel + 1, input =>
    match skipWS input with
    | 'n' :: 'u' :: 'l' :: 'l' :: rest => .ok (.null, rest)
    | 't' :: 'r' :: 'u' :: 'e' :: rest => .ok (.bool true, rest)
    | 'f' :: 'a' :: 'l' :: 's' :: 'e' :: rest => .ok (.bool false, rest)
    | '"' :: rest =>
      match parseStringRest rest with
      | .error b => .error b
      | .ok (s, r) => .ok (.str s, r)
    | '[' :: rest =>
      match skipWS rest with
      | ']' :: r2 => .ok (.arr [], r2)
      | r2 =>
        match parseElems fuel r2 with
        | .error b => .error b
        | .ok (xs, r) => .ok (.arr xs, r)
    | '\x7b' :: rest =>
      match skipWS rest with
      | '\x7d' :: r2 => .ok (.obj [], r2)
      | r2 =>
        match parseFields fuel r2 with
        | .error b => .error b
        | .ok (fs, r) => .ok (.obj fs, r)
    | c :: rest =>
      if numChar c then parseNum (c :: rest) else .error false
    | [] => .error true

/-- Parse the comma-separated elements of a non-empty JSON array, up to and
including the closing bracket. -/
def parseElems : Nat → List Char → Except Bool (List Json × List Char)
  | 0, _ => .error true
  | fuel + 1, input =>
    match parseVal fuel input with
    | .error b => .error b
    | .ok (v, rest) =>
      match skipWS rest with
      | ',' :: r2 =>
        match parseElems fuel r2 with
        | .error b => .error b
        | .ok (vs, r3) => .ok (v :: vs, r3)
      | ']' :: r2 => .ok ([v], r2)
      | [] => .error true
      | _ => .error false

/-- Parse the fields of a non-empty JSON object, up to and including the
closing brace. -/
def parseFields : Nat → List Char → Except Bool (List (List Char × Json) × List Char)
  | 0, _ => .error true
  | fuel + 1, input =>
    match skipWS input with
    | '"' :: rest =>
      match parseStringRest rest with
      | .error b => .error b
      | .ok (key, r1) =>
        match skipWS r1 with
        | ':' :: r2 =>
          match parseVal fuel r2 with
          | .error b => .error b
          | .ok (v, r3) =>
            match skipWS r3 with
            | ',' :: r4 =>
              match parseFields fuel r4 with
              | .error b => .error b
              | .ok (fs, r5) => .ok ((key, v) :: fs, r5)
            | '\x7d' :: r4 => .ok ([(key, v)], r4)
            | [] => .error true
            | _ => .error false
        | [] => .error true
        | _ => .error false
    | [] => .error true
    | _ => .error false

end

/-- Model of `json.NewDecoder(limiter).Decode(v)` in `execAtom` (src/bot.go):
decode the first JSON value of the stream, or fail with a decode error. The
fuel `2 * length + 2` exceeds the parser's maximal descent, so well-formed
input never fails for lack of fuel. -/
def jsonDec (input : List Char) : Except GoError Json :=
  match parseVal (2 * input.length + 2) input with
  | .error b => .error (.decodeError b)
  | .ok (v, _) => .ok v

/-- Oracle describing one subprocess execution as observed by `execAtom`
(src/bot.go): whether `StdoutPipe` or `cmd.Start` fail, the bytes the process
writes to its standard output before exiting or being killed, whether the
`context.WithTimeout` deadline expires before the process exits (in which case
`CommandContext` kills it and `cmd.Wait` reports the kill), and the exit code
otherwise. -/
structure ProcBehavior where
  pipeFails : Bool := false
  startFails : Bool := false
  output : List Char := []
  deadlineExpired : Bool := false
  exitCode : Int := 0

/-- The `io.LimitReader(reader, 1024 * 1024)` byte cap in `execAtom`
(src/bot.go). -/
def outputCap : Nat := 1024 * 1024

/-- Result of one `execAtom` run: `value` is the decode destination (`none`
when `Decode` never populated it, i.e. the Go zero value), `err` the returned
error. -/
structure AtomResult where
  value : Option Json
  err : Option GoError

/-- Model of `(b *Bot) execAtom` (src/bot.go): obtain the stdout pipe, cap it
with `io.LimitReader` at `1024 * 1024` bytes, `Start` the command, `Decode`
one JSON value into the destination, then `Wait`. Each failing step returns
its error at once; a decode failure leaves the destination untouched, while a
`Wait` failure (deadline kill or non-zero exit) happens after the destination
was already populated. -/
def execAtom (p : ProcBehavior) : AtomResult :=
  if p.pipeFails then ⟨none, some .pipeError⟩
  else if p.startFails then ⟨none, some .startError⟩
  else
    match jsonDec (p.output.take outputCap) with
    | .error e => ⟨none, some e⟩
    | .ok v =>
      if p.deadlineExpired then ⟨some v, some .killedError⟩
      else if p.exitCode = 0 then ⟨some v, none⟩
      else ⟨some v, some (.exitError p.exitCode)⟩

/-- Outcome of the submission `select` in `exec` (src/bot.go): either the
`time.After` timer fired before any worker received the task, or a worker
accepted the task, which then ran `execAtom` against the given subprocess
behavior. -/
inductive QueueOutcome where
  | timedOutWaiting
  | accepted (p : ProcBehavior)

/-- Model of `(b *Bot) exec` (src/bot.go): the timer branch sets
`err = fmt.Errorf("timeout waiting for resources")` and leaves the destination
untouched; the send branch waits for the task and returns what `execAtom`
produced. -/
def execRun (q : QueueOutcome) : AtomResult :=
  match q with
  | .timedOutWaiting => ⟨none, some (.errorString "timeout waiting for resources")⟩
  | .accepted p => execAtom p

/-- Model of the pair `return result, err` in `Solve` (src/bot.go): the
destination value (populated or zero) is returned alongside whatever error
`exec` produced. `Coach` and `WordList` return their destinations the same
way. -/
def solveResult (q : QueueOutcome) : Option Json × Option GoError :=
  ((execRun q).value, (execRun q).err)

/-- Model of `BotConfig` (src/bot.go); Go `int` fields become `Int`. -/
structure BotConfig where
  execPath : String
  indexPath : String
  maxConcurrentUsers : Int
  solveTimeout : Int
  coachTimeout : Int

/-- Result of `os.Stat` on the executable: file mode bits (`os.FileMode`
layout), owner uid and gid from `syscall.Stat_t`. -/
structure FileInfo where
  mode : Nat
  uid : Nat
  gid : Nat

/-- The `os.ModeType` bits: `ModeDir`, `ModeSymlink`, `ModeDevice`,
`ModeNamedPipe`, `ModeSocket`, `ModeCharDevice`, `ModeIrregular`. A mode with
none of these set denotes a regular file. -/
def modeTypeMask : Nat :=
  2 ^ 31 ||| 2 ^ 27 ||| 2 ^ 26 ||| 2 ^ 25 ||| 2 ^ 24 ||| 2 ^ 21 ||| 2 ^ 19

/-- Model of `info.Mode().IsRegular()`. -/
def FileInfo.isRegular (fi : FileInfo) : Bool :=
  fi.mode &&& modeTypeMask == 0

/-- Model of `(config BotConfig) validateExec` (src/bot.go). `stat` is the
result of `os.Stat(config.ExecPath)`, with `none` modelling a stat error. The
checks run in source order: stat, regular file, `m & 0o755 == m`, owner
root:root. -/
def BotConfig.validateExec (config : BotConfig) (stat : Option FileInfo) :
    Except GoError Unit :=
  match stat with
  | none => .error .statError
  | some info =>
    if !info.isRegular then
      .error (.errorString ("file at " ++ config.execPath ++ " is not a regular file"))
    else if !(info.mode &&& 0o755 == info.mode) then
      .error (.errorString "engine executable must have mode 0755 or stricter")
    else if !(info.uid == 0) || !(info.gid == 0) then
      .error (.errorString "engine executable must be owned by root")
    else .ok ()

/-- Model of the `Bot` value built by `NewBot` (src/bot.go): the stored config
and the number of workers spawned on the shared channel. -/
structure Bot where
  config : BotConfig
  numWorkers : Nat

/-- Model of `NewBot` (src/bot.go): validate the executable, then spawn one
worker per iteration of `for i := 0; i < config.MaxConcurrentUsers; i++` (so
`max 0 MaxConcurrentUsers` workers). -/
def NewBot (config : BotConfig) (stat : Option FileInfo) : Except GoError Bot :=
  match config.validateExec stat with
  | .error e => .error e
  | .ok _ => .ok { config := config, numWorkers := config.maxConcurrentUsers.toNat }

/-- Shape of one subprocess invocation as built by `(b *Bot) command`
(src/bot.go): executable path, argument list, environment, and the
`context.WithTimeout` deadline in milliseconds. -/
structure Command where
  path : String
  args : List String
  env : List String
  deadlineMs : Int

/-- Model of `(b *Bot) command` (src/bot.go): `CommandContext` under a
`timeout`-millisecond deadline, and environment
`append(cmd.Env, fmt.Sprintf("WORDSMITH_INDEX=%s", b.config.IndexPath))`
starting from a nil `cmd.Env`, so the subprocess environment is exactly that
one variable. -/
def Bot.command (b : Bot) (timeout : Int) (args : List String) : Command :=
  { path := b.config.execPath
    args := args
    env := ["WORDSMITH_INDEX=" ++ b.config.indexPath]
    deadlineMs := timeout }

/-- Submission shape of `(b *Bot) exec` (src/bot.go): the single `timeout`
argument drives both the `time.After(...)` timer racing the channel send and
the subprocess deadline via `b.command(timeout, ...)`. -/
structure ExecCall where
  queueTimerMs : Int
  cmd : Command

/-- Model of how `exec` (src/bot.go) uses its `timeout` argument. -/
def Bot.execCall (b : Bot) (timeout : Int) (args : List String) : ExecCall :=
  { queueTimerMs := timeout, cmd := b.command timeout args }

/-- Model of `(b *Bot) Solve` (src/bot.go):
`b.exec(b.config.SolveTimeout, &result, "solve", "-t", word)`. -/
def Bot.solveCall (b : Bot) (word : String) : ExecCall :=
  b.execCall b.config.solveTimeout ["solve", "-t", word]

/-- Model of `(b *Bot) Coach` (src/bot.go): args `["coach", "-t", word]`
followed by the guesses, under `b.config.CoachTimeout`. -/
def Bot.coachCall (b : Bot) (word : String) (guesses : List String) : ExecCall :=
  b.execCall b.config.coachTimeout (["coach", "-t", word] ++ guesses)

/-- Model of `(b *Bot) WordList` (src/bot.go):
`b.exec(1000, &words, "list", "all")`. -/
def Bot.wordListCall (b : Bot) : ExecCall :=
  b.execCall 1000 ["list", "all"]

/-- State of one worker goroutine spawned by `spawnWorker` (src/bot.go): idle
means blocked receiving on the work channel; `busy c` means it is executing
the task of call `c`; `stopped` means the receive returned `!ok` after `Close`
and the goroutine broke out of its loop. -/
inductive WorkerState where
  | idle
  | busy (call : Nat)
  | stopped
  deriving DecidableEq

/-- State of one `Solve`/`Coach`/`WordList` call inside `exec` (src/bot.go):
`waiting` means blocked in the `select`, offering its task on the channel with
a `t`-millisecond timer running; `running w` means worker `w` accepted the
task and is executing `execAtom`; `timedOut` means the timer branch was taken;
`panicked` means the blocked send hit a closed channel, which panics in Go;
`done r` means the accepted task finished and `wg.Wait` returned, with `r` the
`execAtom` error result. -/
inductive CallState where
  | waiting (timeoutMs : Int)
  | running (worker : Nat)
  | timedOut
  | panicked
  | done (err : Option GoError)
  deriving DecidableEq

/-- Global state of the scheduler built by `NewBot` (src/bot.go): the worker
pool, whether `Close` has run (`close(b.work)`), and the list of all calls
submitted so far, indexed by submission order. -/
structure SchedState where
  workers : List WorkerState
  closed : Bool
  calls : List CallState
  deriving DecidableEq

/-- Effect of `close(b.work)` on a goroutine blocked sending on the channel:
in Go the pending send panics, so a `waiting` submission becomes `panicked`;
every other call state is untouched. -/
def abortWaiting : CallState → CallState
  | .waiting _ => .panicked
  | st => st

/-- Whether a call is currently executing `execAtom` (a live subprocess
invocation). -/
def isRunning : CallState → Bool
  | .running _ => true
  | _ => false

/-- Whether a worker is currently executing a task. -/
def isBusy : WorkerState → Bool
  | .busy _ => true
  | _ => false

/-- Number of calls currently executing `execAtom`. -/
def countRunning (s : SchedState) : Nat :=
  s.calls.countP isRunning

/-- Number of workers currently executing a task. -/
def busyCount (s : SchedState) : Nat :=
  s.workers.countP isBusy

/-- Error value `exec` (src/bot.go) returns for a call in the given state:
the timer branch sets `fmt.Errorf("timeout waiting for resources")`, a
finished task returns its `execAtom` error, and a call still in flight (or one
that panicked) has no return value. -/
def callResult : CallState → Option (Option GoError)
  | .timedOut => some (some (.errorString "timeout waiting for resources"))
  | .done r => some r
  | _ => none

/-- Small-step semantics of the scheduler in src/bot.go. `submit` is a caller
entering the `select` in `exec`; `submitClosed` the same entry when the
channel is already closed (the send case of the `select` is immediately ready
and panics); `accept` the rendezvous of an unbuffered-channel send with an
idle worker's receive; `timerFire` the `time.After` branch of the `select`;
`finish` a worker completing `execAtom` and `wg.Done` releasing the caller;
`close` is `Close` closing the channel, which makes every pending blocked send
panic; `workerExit` an idle worker whose receive on the closed channel
returns `!ok`, ending its loop. -/
inductive SchedStep : SchedState → SchedState → Prop where
  | submit (s : SchedState) (t : Int) (h : s.closed = false) :
      SchedStep s { s with calls := s.calls ++ [.waiting t] }
  | submitClosed (s : SchedState) (h : s.closed = true) :
      SchedStep s { s with calls := s.calls ++ [.panicked] }
  | accept (s : SchedState) (w c : Nat) (t : Int)
      (hw : s.workers[w]? = some .idle)
      (hc : s.calls[c]? = some (.waiting t)) :
      SchedStep s { s with workers := s.workers.set w (.busy c),
                           calls := s.calls.set c (.running w) }
  | timerFire (s : SchedState) (c : Nat) (t : Int)
      (hc : s.calls[c]? = some (.waiting t)) :
      SchedStep s { s with calls := s.calls.set c .timedOut }
  | finish (s : SchedState) (w c : Nat) (r : Option GoError)
      (hw : s.workers[w]? = some (.busy c))
      (hc : s.calls[c]? = some (.running w)) :
      SchedStep s { s with workers := s.workers.set w .idle,
                           calls := s.calls.set c (.done r) }
  | close (s : SchedState) (h : s.closed = false) :
      SchedStep s { s with closed := true, calls := s.calls.map abortWaiting }
  | workerExit (s : SchedState) (w : Nat)
      (h : s.closed = true) (hw : s.workers[w]? = some .idle) :
      SchedStep s { s with workers := s.workers.set w .stopped }

/-- Scheduler state right after `NewBot` (src/bot.go) with
`MaxConcurrentUsers = n`: the spawn loop runs `max 0 n` times, the channel is
open, and no call has been submitted. -/
def initState (n : Int) : SchedState :=
  { workers := List.replicate n.toNat .idle, closed := false, calls := [] }

/-- States the scheduler of a Bot with `MaxConcurrentUsers = n` can reach. -/
def Reachable (n : Int) (s : SchedState) : Prop :=
  Relation.ReflTransGen SchedStep (initState n) s

/-- A well-formed subprocess output: one JSON array holding one complete
`WordReport` object (the shape `Solve` decodes into), as the external engine
emits it. -/
def wrOutput : List Char :=
  ("[\x7b\"user\":\x7b\"word\":\"abcde\",\"score\":0\x7d,\"best\":[],"
    ++ "\"optionsLeft\":[],\"eliminated\":0,\"colors\":\"\"\x7d]").toList

/-- A subprocess output longer than the 1 MiB cap whose first JSON value is
already complete after two bytes. -/
def bigOutput : List Char := '[' :: ']' :: List.replicate outputCap 'x'

end Wbot

namespace Wbot

theorem take_cons_cons (n : Nat) (a b : α) (l : List α) :
    List.take (n + 2) (a :: b :: l) = a :: b :: List.take n l := by
  simp [List.take_succ_cons, show n + 2 = (n + 1) + 1 from rfl]

theorem jsonDec_emptyArr (rest : List Char) : jsonDec ('[' :: ']' :: rest) = .ok (.arr []) :=
  rfl

theorem bigOutput_capped : jsonDec (bigOutput.take outputCap) = .ok (.arr []) := by
  rw [bigOutput, show outputCap = 1048574 + 2 from by norm_num [outputCap]]
  rw [take_cons_cons]
  exact jsonDec_emptyArr _

theorem bigOutput_length : bigOutput.length = outputCap + 2 := by
  rw [bigOutput, List.length_cons, List.length_cons, List.length_replicate]

theorem execAtom_decode_ok (p : ProcBehavior) (v : Json)
    (hp : p.pipeFails = false) (hs : p.startFails = false)
    (hd : jsonDec (p.output.take outputCap) = .ok v) :
    execAtom p = ⟨some v,
      if p.deadlineExpired then some .killedError
      else if p.exitCode = 0 then none
      else some (.exitError p.exitCode)⟩ := by
  rw [execAtom, hp, hs, hd]
  simp only [Bool.false_eq_true, if_false]
  by_cases hc : p.deadlineExpired = true <;> by_cases he : p.exitCode = 0 <;>
    simp [hc, he]

theorem countP_set_eq (l : List α) (i : Nat) (a b : α) (p : α → Bool)
    (h : l[i]? = some a) :
    (l.set i b).countP p + (if p a then 1 else 0)
      = l.countP p + (if p b then 1 else 0) := by
  induction l generalizing i with
  | nil => simp at h
  | cons x xs ih =>
    cases i with
    | zero =>
      simp only [List.getElem?_cons_zero, Option.some_inj] at h
      subst h
      simp only [List.set_cons_zero, List.countP_cons]
      omega
    | succ n =>
      simp only [List.getElem?_cons_succ] at h
      simp only [List.set_cons_succ, List.countP_cons]
      have := ih n h
      omega

theorem and_mask_eq_iff (m p : Nat) :
    (m &&& p == m) = true ↔ ∀ k, m.testBit k = true → p.testBit k = true := by
  rw [beq_iff_eq]
  constructor
  · intro h k hk
    have h2 : (m &&& p).testBit k = m.testBit k := by rw [h]
    rw [Nat.testBit_and, hk] at h2
    simpa using h2
  · intro h
    apply Nat.eq_of_testBit_eq
    intro k
    rw [Nat.testBit_and]
    cases hmk : m.testBit k with
    | false => simp
    | true => simp [h k hmk]

/-- C1 claims the queue-wait and subprocess-deadline failures are returned as
Timeout-classified errors distinguishable by type from every other failure.
The code is wrong (code bug): the queue-wait expiry returns a plain
`fmt.Errorf` string error, and a deadline that expires while the output is
still incomplete yields exactly the same decode error as malformed output
from a healthy process; neither satisfies the `err.(TimeoutError)` assertion
`internalError` uses for classification, so that 503 path is unreachable. -/
theorem timeout_errors_indistinguishable :
    (execRun .timedOutWaiting).err = some (.errorString "timeout waiting for resources") ∧
    isTimeoutTyped (.errorString "timeout waiting for resources") = false ∧
    (execAtom { output := ['['], deadlineExpired := true }).err
      = (execAtom { output := ['['], deadlineExpired := false }).err ∧
    (execAtom { output := ['['], deadlineExpired := true }).err = some (.decodeError true) ∧
    isTimeoutTyped (.decodeError true) = false :=
  ⟨rfl, rfl, rfl, rfl, rfl⟩

/-- C7: `Solve(w)` invokes the executable with `["solve", "-t", w]` under the
configured solve timeout, `Coach(w, gs)` with `["coach", "-t", w] ++ gs` under
the coach timeout, `WordList()` with `["list", "all"]` under a fixed 1000 ms
timeout, and every invocation runs the configured executable path with the
environment carrying `WORDSMITH_INDEX` set to the configured index path. -/
theorem facade_invocation_shapes (b : Bot) (word : String) (guesses : List String) :
    (b.solveCall word).cmd.path = b.config.execPath ∧
    (b.solveCall word).cmd.args = ["solve", "-t", word] ∧
    (b.solveCall word).cmd.deadlineMs = b.config.solveTimeout ∧
    (b.coachCall word guesses).cmd.path = b.config.execPath ∧
    (b.coachCall word guesses).cmd.args = ["coach", "-t", word] ++ guesses ∧
    (b.coachCall word guesses).cmd.deadlineMs = b.config.coachTimeout ∧
    b.wordListCall.cmd.path = b.config.execPath ∧
    b.wordListCall.cmd.args = ["list", "all"] ∧
    b.wordListCall.cmd.deadlineMs = 1000 ∧
    (b.solveCall word).cmd.env = ["WORDSMITH_INDEX=" ++ b.config.indexPath] ∧
    (b.coachCall word guesses).cmd.env = ["WORDSMITH_INDEX=" ++ b.config.indexPath] ∧
    b.wordListCall.cmd.env = ["WORDSMITH_INDEX=" ++ b.config.indexPath] :=
  ⟨rfl, rfl, rfl, rfl, rfl, rfl, rfl, rfl, rfl, rfl, rfl, rfl⟩

/-- C8: for each operation the duration of the queue-wait timer and the
subprocess execution deadline are the same configured value (solve timeout,
coach timeout, 1000 ms for the word list), so one call may consume close to
twice that value end to end. -/
theorem double_timeout_budget (b : Bot) (word : String) (guesses : List String) :
    ((b.solveCall word).queueTimerMs = b.config.solveTimeout ∧
      (b.solveCall word).cmd.deadlineMs = b.config.solveTimeout) ∧
    ((b.coachCall word guesses).queueTimerMs = b.config.coachTimeout ∧
      (b.coachCall word guesses).cmd.deadlineMs = b.config.coachTimeout) ∧
    (b.wordListCall.queueTimerMs = 1000 ∧ b.wordListCall.cmd.deadlineMs = 1000) :=
  ⟨⟨rfl, rfl⟩, ⟨rfl, rfl⟩, ⟨rfl, rfl⟩⟩

/-- C4 as stated is false: when the subprocess emits a complete, well-formed
`WordReport` array and then exits non-zero, `Decode` has already populated the
destination before `Wait` fails, so `Solve` returns a populated decoded value
together with a non-nil error. -/
theorem partial_result_with_error :
    (solveResult (.accepted { output := wrOutput, exitCode := 1 })).1.isSome = true ∧
    (solveResult (.accepted { output := wrOutput, exitCode := 1 })).2
      = some (.exitError 1) := by
  exact ⟨by decide, by decide⟩

/-- C4 amended: a populated result can accompany a non-nil error, but only
when decoding succeeded and the subsequent `Wait` failed — the accompanying
error is then the deadline kill or a non-zero exit, never anything else; a
queue timeout, start failure or decode failure always leaves the result
empty. -/
theorem partial_results_only_after_decode (q : QueueOutcome) (e : GoError)
    (hv : (execRun q).value.isSome = true) (he : (execRun q).err = some e) :
    e = .killedError ∨ ∃ code, e = .exitError code := by
  cases q with
  | timedOutWaiting => simp [execRun] at hv
  | accepted p =>
    rw [execRun] at hv he
    rw [execAtom] at hv he
    by_cases h1 : p.pipeFails = true
    · simp [h1] at hv
    · rw [eq_false_of_ne_true h1] at hv he
      simp only [Bool.false_eq_true, if_false] at hv he
      by_cases h2 : p.startFails = true
      · simp [h2] at hv
      · rw [eq_false_of_ne_true h2] at hv he
        simp only [Bool.false_eq_true, if_false] at hv he
        cases hj : jsonDec (p.output.take outputCap) with
        | error e2 => rw [hj] at hv; simp at hv
        | ok v =>
          rw [hj] at he
          by_cases h3 : p.deadlineExpired = true
          · rw [h3] at he
            simp only [if_true] at he
            left
            exact (Option.some_inj.mp he).symm
          · rw [eq_false_of_ne_true h3] at he
            simp only [Bool.false_eq_true, if_false] at he
            by_cases h4 : p.exitCode = 0
            · rw [if_pos h4] at he
              simp at he
            · rw [if_neg h4] at he
              right
              exact ⟨p.exitCode, (Option.some_inj.mp he).symm⟩

theorem partial_results_only_after_decode_witness :
    GoError.exitError 1 = .killedError ∨ ∃ code, GoError.exitError 1 = .exitError code :=
  partial_results_only_after_decode (.accepted { output := wrOutput, exitCode := 1 })
    (.exitError 1) (by decide) (by decide)

/-- C6's converse ("more than 1,048,576 bytes of output always results in a
DecodeFailure") is false: a subprocess that emits a complete two-byte JSON
value followed by 1 MiB of further output emits more than the cap in total,
yet the decode succeeds on the capped prefix; the call then fails only through
`Wait` (here the deadline kill, since the blocked writer never exits), which
is not a decode failure. -/
theorem overflow_output_not_decode_failure :
    outputCap < bigOutput.length ∧
    (execAtom { output := bigOutput, deadlineExpired := true }).err = some .killedError ∧
    ∀ b, (execAtom { output := bigOutput, deadlineExpired := true }).err
      ≠ some (.decodeError b) := by
  refine ⟨by rw [bigOutput_length]; omega, ?_, ?_⟩
  · rw [execAtom_decode_ok ⟨false, false, bigOutput, true, 0⟩ (.arr []) rfl rfl bigOutput_capped]
    rfl
  · intro b
    rw [execAtom_decode_ok ⟨false, false, bigOutput, true, 0⟩ (.arr []) rfl rfl bigOutput_capped]
    simp

/-- C6 amended: a call reads at most 1,048,576 bytes of subprocess output
(its result depends only on the capped prefix), and whenever the first JSON
value does not decode from that capped prefix — in particular when the value
is incomplete within the first 1,048,576 bytes — the call fails with exactly
that decode failure and an empty result; but output beyond the cap after a
complete JSON value does not cause a decode failure. -/
theorem output_cap_behavior (p : ProcBehavior) :
    execAtom { p with output := p.output.take outputCap } = execAtom p ∧
    (∀ e, p.pipeFails = false → p.startFails = false →
      jsonDec (p.output.take outputCap) = .error e →
      execAtom p = ⟨none, some e⟩ ∧ ∃ b, e = .decodeError b) ∧
    (∀ v, jsonDec (p.output.take outputCap) = .ok v →
      ∀ b, (execAtom p).err ≠ some (.decodeError b)) := by
  refine ⟨?_, ?_, ?_⟩
  · show execAtom ⟨p.pipeFails, p.startFails, p.output.take outputCap,
      p.deadlineExpired, p.exitCode⟩ = execAtom p
    rw [execAtom, execAtom]
    simp only [List.take_take, Nat.min_self]
  · intro e hp hs hd
    constructor
    · rw [execAtom, hp, hs, hd]
      simp
    · rw [jsonDec] at hd
      cases hpv : parseVal (2 * (p.output.take outputCap).length + 2) (p.output.take outputCap) with
      | error b =>
        rw [hpv] at hd
        simp only [Except.error.injEq] at hd
        exact ⟨b, hd.symm⟩
      | ok v => rw [hpv] at hd; cases hd
  · intro v hd b
    rw [execAtom, hd]
    by_cases h1 : p.pipeFails = true
    · simp [h1]
    · by_cases h2 : p.startFails = true
      · simp [h1, h2]
      · by_cases h3 : p.deadlineExpired = true
        · simp [h1, h2, h3]
        · by_cases h4 : p.exitCode = 0 <;> simp [h1, h2, h3, h4]

theorem output_cap_behavior_witness :
    execAtom { output := ['x'] } = ⟨none, some (.decodeError false)⟩ ∧
    (∃ b, (GoError.decodeError false) = .decodeError b) :=
  (output_cap_behavior { output := ['x'] }).2.1 (.decodeError false) rfl rfl rfl

theorem isRunning_abortWaiting (st : CallState) :
    isRunning (abortWaiting st) = isRunning st := by
  cases st <;> rfl

theorem step_workers_length (s s' : SchedState) (h : SchedStep s s') :
    s'.workers.length = s.workers.length := by
  cases h <;> simp

theorem step_calls_length_mono (s s' : SchedState) (h : SchedStep s s') :
    s.calls.length ≤ s'.calls.length := by
  cases h <;> simp

theorem step_closed_mono (s s' : SchedState) (h : SchedStep s s')
    (hc : s.closed = true) : s'.closed = true := by
  cases h <;> simp_all

theorem step_count_eq (s s' : SchedState) (h : SchedStep s s')
    (hinv : countRunning s = busyCount s) : countRunning s' = busyCount s' := by
  cases h with
  | submit t h =>
    simp only [countRunning, busyCount, List.countP_append] at *
    simpa [List.countP_cons, isRunning] using hinv
  | submitClosed h =>
    simp only [countRunning, busyCount, List.countP_append] at *
    simpa [List.countP_cons, isRunning] using hinv
  | accept w c t hw hc =>
    simp only [countRunning, busyCount] at *
    have h1 := countP_set_eq s.calls c (.waiting t) (.running w) isRunning hc
    have h2 := countP_set_eq s.workers w .idle (.busy c) isBusy hw
    simp [isRunning, isBusy] at h1 h2
    omega
  | timerFire c t hc =>
    simp only [countRunning, busyCount] at *
    have h1 := countP_set_eq s.calls c (.waiting t) .timedOut isRunning hc
    simp [isRunning] at h1
    omega
  | finish w c r hw hc =>
    simp only [countRunning, busyCount] at *
    have h1 := countP_set_eq s.calls c (.running w) (.done r) isRunning hc
    have h2 := countP_set_eq s.workers w (.busy c) .idle isBusy hw
    simp [isRunning, isBusy] at h1 h2
    omega
  | close h =>
    simp only [countRunning, busyCount] at *
    rw [List.countP_map]
    have : (isRunning ∘ abortWaiting) = isRunning := by
      funext st
      exact isRunning_abortWaiting st
    rw [this]
    exact hinv
  | workerExit w h hw =>
    simp only [countRunning, busyCount] at *
    have h2 := countP_set_eq s.workers w .idle .stopped isBusy hw
    simp [isBusy] at h2
    omega

theorem reachable_count_inv (n : Int) (s : SchedState) (h : Reachable n s) :
    countRunning s = busyCount s ∧ s.workers.length = n.toNat := by
  induction h with
  | refl =>
    constructor
    · simp only [initState, countRunning, busyCount, List.countP_nil]
      rw [Eq.comm, List.countP_eq_zero]
      intro a ha
      rw [List.eq_of_mem_replicate ha]
      decide
    · simp [initState]
  | tail hab hbc ih =>
    exact ⟨step_count_eq _ _ hbc ih.1, (step_workers_length _ _ hbc).trans ih.2⟩

/-- C2: with `MaxConcurrentUsers = n ≥ 1`, in every reachable scheduler state
the number of calls currently executing `execAtom` (live subprocess
invocations) never exceeds `n`: tasks run only on workers, one at a time, and
the pool holds exactly `n` workers. -/
theorem concurrent_subprocess_bound (n : Int) (s : SchedState)
    (hn : 1 ≤ n) (h : Reachable n s) : (countRunning s : Int) ≤ n := by
  obtain ⟨heq, hlen⟩ := reachable_count_inv n s h
  have h1 : busyCount s ≤ s.workers.length := by
    simp only [busyCount]
    exact List.countP_le_length isBusy
  rw [hlen] at h1
  rw [heq]
  omega

theorem concurrent_subprocess_bound_witness :
    (1 : Int) ≤ 2 ∧ (countRunning (initState 2) : Int) ≤ 2 :=
  ⟨by norm_num,
    concurrent_subprocess_bound 2 (initState 2) (by norm_num) Relation.ReflTransGen.refl⟩

theorem step_call_stable (s s' : SchedState) (h : SchedStep s s') (c : Nat) (st : CallState)
    (hc : s.calls[c]? = some st)
    (hnw : ∀ t, st ≠ .waiting t) (hnr : ∀ w, st ≠ .running w) :
    s'.calls[c]? = some st := by
  have hlt : c < s.calls.length := (List.getElem?_eq_some_iff.mp hc).1
  cases h with
  | submit t h =>
    show (s.calls ++ [CallState.waiting t])[c]? = some st
    rw [List.getElem?_append_left hlt]
    exact hc
  | submitClosed h =>
    show (s.calls ++ [CallState.panicked])[c]? = some st
    rw [List.getElem?_append_left hlt]
    exact hc
  | accept w c' t hw hc' =>
    have hne : c' ≠ c := by
      intro he
      subst he
      rw [hc'] at hc
      exact hnw t (Option.some_inj.mp hc).symm
    show (s.calls.set c' (.running w))[c]? = some st
    rw [List.getElem?_set_ne hne]
    exact hc
  | timerFire c' t hc' =>
    have hne : c' ≠ c := by
      intro he
      subst he
      rw [hc'] at hc
      exact hnw t (Option.some_inj.mp hc).symm
    show (s.calls.set c' .timedOut)[c]? = some st
    rw [List.getElem?_set_ne hne]
    exact hc
  | finish w c' r hw hc' =>
    have hne : c' ≠ c := by
      intro he
      subst he
      rw [hc'] at hc
      exact hnr w (Option.some_inj.mp hc).symm
    show (s.calls.set c' (.done r))[c]? = some st
    rw [List.getElem?_set_ne hne]
    exact hc
  | close h =>
    show (s.calls.map abortWaiting)[c]? = some st
    rw [List.getElem?_map, hc]
    cases st <;> first | rfl | exact absurd rfl (hnw _)
  | workerExit w h hw =>
    exact hc

theorem step_running_evolves (s s' : SchedState) (h : SchedStep s s') (c w : Nat)
    (hc : s.calls[c]? = some (.running w)) :
    s'.calls[c]? = some (.running w) ∨ ∃ r, s'.calls[c]? = some (.done r) := by
  have hlt : c < s.calls.length := (List.getElem?_eq_some_iff.mp hc).1
  cases h with
  | submit t h =>
    left
    show (s.calls ++ [CallState.waiting t])[c]? = some (.running w)
    rw [List.getElem?_append_left hlt]
    exact hc
  | submitClosed h =>
    left
    show (s.calls ++ [CallState.panicked])[c]? = some (.running w)
    rw [List.getElem?_append_left hlt]
    exact hc
  | accept w' c' t hw hc' =>
    left
    have hne : c' ≠ c := by
      intro he
      subst he
      rw [hc'] at hc
      simp at hc
    show (s.calls.set c' (.running w'))[c]? = some (.running w)
    rw [List.getElem?_set_ne hne]
    exact hc
  | timerFire c' t hc' =>
    left
    have hne : c' ≠ c := by
      intro he
      subst he
      rw [hc'] at hc
      simp at hc
    show (s.calls.set c' .timedOut)[c]? = some (.running w)
    rw [List.getElem?_set_ne hne]
    exact hc
  | finish w' c' r hw hc' =>
    by_cases he : c' = c
    · subst he
      right
      refine ⟨r, ?_⟩
      show (s.calls.set c' (.done r))[c']? = some (.done r)
      exact List.getElem?_set_self hlt
    · left
      show (s.calls.set c' (.done r))[c]? = some (.running w)
      rw [List.getElem?_set_ne he]
      exact hc
  | close h =>
    left
    show (s.calls.map abortWaiting)[c]? = some (.running w)
    rw [List.getElem?_map, hc]
    rfl
  | workerExit w' h hw =>
    left
    exact hc

theorem rtc_call_stable (s s' : SchedState) (h : Relation.ReflTransGen SchedStep s s')
    (c : Nat) (st : CallState) (hc : s.calls[c]? = some st)
    (hnw : ∀ t, st ≠ .waiting t) (hnr : ∀ w, st ≠ .running w) :
    s'.calls[c]? = some st := by
  induction h with
  | refl => exact hc
  | tail hab hbc ih => exact step_call_stable _ _ hbc c st ih hnw hnr

theorem rtc_running_evolves (s s' : SchedState) (h : Relation.ReflTransGen SchedStep s s')
    (c w : Nat) (hc : s.calls[c]? = some (.running w)) :
    s'.calls[c]? = some (.running w) ∨ ∃ r, s'.calls[c]? = some (.done r) := by
  induction h with
  | refl => left; exact hc
  | tail hab hbc ih =>
    cases ih with
    | inl h2 => exact step_running_evolves _ _ hbc c w h2
    | inr h2 =>
      obtain ⟨r, h2⟩ := h2
      right
      exact ⟨r, step_call_stable _ _ hbc c (.done r) h2 (by simp) (by simp)⟩

/-- C10: once a submission takes the timer branch it is `timedOut` forever —
the task was never sent on the channel and no later step can make it run, so
no subprocess is ever spawned for it (first conjunct: `timedOut` is stable,
hence never `running` afterwards; second: a call observed running can only
stay running or finish, never become `timedOut`, so a timed-out call never ran
earlier either; third: a finished call stays finished, so each call runs at
most once). -/
theorem abandoned_tasks_never_execute (s s' : SchedState)
    (h : Relation.ReflTransGen SchedStep s s') (c : Nat) :
    (s.calls[c]? = some .timedOut → s'.calls[c]? = some .timedOut) ∧
    (∀ w, s.calls[c]? = some (.running w) →
      s'.calls[c]? = some (.running w) ∨ ∃ r, s'.calls[c]? = some (.done r)) ∧
    (∀ r, s.calls[c]? = some (.done r) → s'.calls[c]? = some (.done r)) := by
  refine ⟨?_, ?_, ?_⟩
  · intro hc
    exact rtc_call_stable s s' h c .timedOut hc (by simp) (by simp)
  · intro w hc
    exact rtc_running_evolves s s' h c w hc
  · intro r hc
    exact rtc_call_stable s s' h c (.done r) hc (by simp) (by simp)

theorem abandoned_tasks_never_execute_witness :
    ({ workers := [.idle], closed := false, calls := [.timedOut] } : SchedState).calls[0]?
      = some CallState.timedOut :=
  (abandoned_tasks_never_execute
    { workers := [.idle], closed := false, calls := [.timedOut] }
    { workers := [.idle], closed := false, calls := [.timedOut] }
    Relation.ReflTransGen.refl 0).1 rfl

theorem rtc_closed_mono (s s' : SchedState) (h : Relation.ReflTransGen SchedStep s s')
    (hc : s.closed = true) : s'.closed = true := by
  induction h with
  | refl => exact hc
  | tail hab hbc ih => exact step_closed_mono _ _ hbc ih

theorem step_closed_append_panicked (s s' : SchedState) (h : SchedStep s s')
    (hcl : s.closed = true) (c : Nat) (hge : s.calls.length ≤ c)
    (hlt : c < s'.calls.length) : s'.calls[c]? = some .panicked := by
  cases h with
  | submit t h => rw [h] at hcl; simp at hcl
  | submitClosed h =>
    have hce : c = s.calls.length := by
      simp at hlt
      omega
    show (s.calls ++ [CallState.panicked])[c]? = some .panicked
    rw [hce]
    exact List.getElem?_concat_length s.calls .panicked
  | accept w c' t hw hc' => simp at hlt; omega
  | timerFire c' t hc' => simp at hlt; omega
  | finish w c' r hw hc' => simp at hlt; omega
  | close h => rw [h] at hcl; simp at hcl
  | workerExit w h hw => simp at hlt; omega

theorem rtc_closed_append_panicked (s s' : SchedState)
    (h : Relation.ReflTransGen SchedStep s s') (hcl : s.closed = true) (c : Nat)
    (hge : s.calls.length ≤ c) :
    c < s'.calls.length → s'.calls[c]? = some .panicked := by
  induction h with
  | refl => intro hlt; omega
  | @tail b2 c2 hab hbc ih =>
    intro hlt
    by_cases hb : c < b2.calls.length
    · exact step_call_stable _ _ hbc c .panicked (ih hb) (by simp) (by simp)
    · exact step_closed_append_panicked _ _ hbc (rtc_closed_mono _ _ hab hcl) c (by omega) hlt

/-- C3 as stated is false at the "no panic" conjunct: a call submitted after
`Close` reaches the `select` whose channel-send case is a send on a closed
channel, which is immediately ready and panics in Go. Here a concrete
two-step trace from a one-worker pool — `close`, then a submission — reaches
a state whose submitted call is `panicked`. -/
theorem close_submission_panics :
    Relation.ReflTransGen SchedStep (initState 1)
      { workers := [.idle], closed := true, calls := [.panicked] } ∧
    ({ workers := [.idle], closed := true, calls := [.panicked] } : SchedState).calls[0]?
      = some CallState.panicked := by
  refine ⟨?_, rfl⟩
  have h1 : SchedStep (initState 1) { workers := [.idle], closed := true, calls := [] } :=
    SchedStep.close (initState 1) rfl
  have h2 : SchedStep { workers := [.idle], closed := true, calls := [] }
      { workers := [.idle], closed := true, calls := [.panicked] } :=
    SchedStep.submitClosed { workers := [.idle], closed := true, calls := [] } rfl
  exact Relation.ReflTransGen.tail (Relation.ReflTransGen.single h1) h2

/-- C3 amended: after `Close`, a new submission panics (Go run-time panic on
send to a closed channel) instead of returning; it never reaches a worker, so
no subprocess is started for it (first conjunct: `panicked` is permanent,
hence such a call is never `running`; third conjunct: every call submitted
while the scheduler is closed is `panicked`). Calls whose task a worker
accepted before `Close` are unaffected: they stay running or finish normally
(second conjunct). -/
theorem close_behavior (s s' : SchedState)
    (h : Relation.ReflTransGen SchedStep s s') :
    (∀ c : Nat, s.calls[c]? = some .panicked → s'.calls[c]? = some .panicked) ∧
    (∀ (c w : Nat), s.calls[c]? = some (.running w) →
      s'.calls[c]? = some (.running w) ∨ ∃ r, s'.calls[c]? = some (.done r)) ∧
    (s.closed = true → ∀ c : Nat, s.calls.length ≤ c → c < s'.calls.length →
      s'.calls[c]? = some .panicked) := by
  refine ⟨?_, ?_, ?_⟩
  · intro c hc
    exact rtc_call_stable s s' h c .panicked hc (by simp) (by simp)
  · intro c w hc
    exact rtc_running_evolves s s' h c w hc
  · intro hcl c hge hlt
    exact rtc_closed_append_panicked s s' h hcl c hge hlt

theorem close_behavior_witness :
    ({ workers := [.idle], closed := true, calls := [.panicked] } : SchedState).calls[0]?
      = some CallState.panicked :=
  (close_behavior { workers := [.idle], closed := true, calls := [.panicked] }
    { workers := [.idle], closed := true, calls := [.panicked] }
    Relation.ReflTransGen.refl).1 0 rfl

theorem zero_workers_inv (n : Int) (hn : n ≤ 0) (s : SchedState) (h : Reachable n s) :
    s.workers = [] ∧ ∀ (c : Nat) (st : CallState), s.calls[c]? = some st →
      isRunning st = false ∧ ∀ r, st ≠ .done r := by
  induction h with
  | refl =>
    constructor
    · simp [initState, Int.toNat_eq_zero.mpr hn]
    · intro c st hc
      simp [initState] at hc
  | @tail b2 s2 hab hbc ih =>
    obtain ⟨hw, hcalls⟩ := ih
    cases hbc with
    | submit t h =>
      refine ⟨hw, ?_⟩
      intro c st hc
      change (b2.calls ++ [CallState.waiting t])[c]? = some st at hc
      by_cases hlt : c < b2.calls.length
      · rw [List.getElem?_append_left hlt] at hc
        exact hcalls c st hc
      · rw [List.getElem?_append_right (by omega)] at hc
        cases hm : c - b2.calls.length with
        | zero =>
          rw [hm] at hc
          cases Option.some_inj.mp hc
          exact ⟨rfl, by simp⟩
        | succ m =>
          rw [hm] at hc
          simp at hc
    | submitClosed h =>
      refine ⟨hw, ?_⟩
      intro c st hc
      change (b2.calls ++ [CallState.panicked])[c]? = some st at hc
      by_cases hlt : c < b2.calls.length
      · rw [List.getElem?_append_left hlt] at hc
        exact hcalls c st hc
      · rw [List.getElem?_append_right (by omega)] at hc
        cases hm : c - b2.calls.length with
        | zero =>
          rw [hm] at hc
          cases Option.some_inj.mp hc
          exact ⟨rfl, by simp⟩
        | succ m =>
          rw [hm] at hc
          simp at hc
    | accept w c' t hw' hc' =>
      rw [hw] at hw'
      simp at hw'
    | timerFire c' t hc' =>
      refine ⟨hw, ?_⟩
      intro c st hc
      change (b2.calls.set c' .timedOut)[c]? = some st at hc
      by_cases he : c' = c
      · subst he
        rw [List.getElem?_set_self (List.getElem?_eq_some_iff.mp hc').1] at hc
        cases Option.some_inj.mp hc
        exact ⟨rfl, by simp⟩
      · rw [List.getElem?_set_ne he] at hc
        exact hcalls c st hc
    | finish w c' r hw' hc' =>
      rw [hw] at hw'
      simp at hw'
    | close h =>
      refine ⟨hw, ?_⟩
      intro c st hc
      change (b2.calls.map abortWaiting)[c]? = some st at hc
      rw [List.getElem?_map] at hc
      cases ho : b2.calls[c]? with
      | none => rw [ho] at hc; simp at hc
      | some old =>
        rw [ho] at hc
        simp only [Option.map_some'] at hc
        obtain ⟨hrun, hdone⟩ := hcalls c old ho
        cases Option.some_inj.mp hc
        cases old with
        | waiting t => exact ⟨rfl, by simp [abortWaiting]⟩
        | running w => simp [isRunning] at hrun
        | timedOut => exact ⟨rfl, by simp [abortWaiting]⟩
        | panicked => exact ⟨rfl, by simp [abortWaiting]⟩
        | done r => exact absurd rfl (hdone r)
    | workerExit w h hw' =>
      rw [hw] at hw'
      simp at hw'

/-- C9: with `MaxConcurrentUsers ≤ 0` and an executable passing the trust
checks, `NewBot` still succeeds but spawns zero workers; thereafter no call
can ever run or finish through a worker — a submitted call stays waiting
until its timer fires, and the only result any call can ever produce is the
queue-wait timeout error `fmt.Errorf("timeout waiting for resources")`. -/
theorem zero_worker_degeneracy (cfg : BotConfig) (stat : Option FileInfo) (s : SchedState)
    (hn : cfg.maxConcurrentUsers ≤ 0)
    (hv : cfg.validateExec stat = .ok ())
    (hs : Reachable cfg.maxConcurrentUsers s) :
    NewBot cfg stat = .ok { config := cfg, numWorkers := 0 } ∧
    ∀ (c : Nat) (st : CallState), s.calls[c]? = some st →
      isRunning st = false ∧
      (callResult st = none ∨
        callResult st = some (some (.errorString "timeout waiting for resources"))) := by
  constructor
  · rw [NewBot, hv, Int.toNat_eq_zero.mpr hn]
  · intro c st hc
    obtain ⟨hrun, hdone⟩ := (zero_workers_inv cfg.maxConcurrentUsers hn s hs).2 c st hc
    refine ⟨hrun, ?_⟩
    cases st with
    | waiting t => left; rfl
    | running w => simp [isRunning] at hrun
    | timedOut => right; rfl
    | panicked => left; rfl
    | done r => exact absurd rfl (hdone r)

theorem zero_worker_degeneracy_witness :
    NewBot ⟨"/usr/local/bin/wordsmith", "/etc/wbot/index.txt", 0, 5000, 4000⟩
        (some ⟨0o755, 0, 0⟩)
      = .ok ⟨⟨"/usr/local/bin/wordsmith", "/etc/wbot/index.txt", 0, 5000, 4000⟩, 0⟩ ∧
    (isRunning .timedOut = false ∧
      (callResult .timedOut = none ∨
        callResult .timedOut
          = some (some (.errorString "timeout waiting for resources")))) := by
  have t1 : SchedStep (initState 0)
      { workers := [], closed := false, calls := [.waiting 5000] } :=
    SchedStep.submit (initState 0) 5000 rfl
  have t2 : SchedStep { workers := [], closed := false, calls := [.waiting 5000] }
      { workers := [], closed := false, calls := [.timedOut] } :=
    SchedStep.timerFire { workers := [], closed := false, calls := [.waiting 5000] } 0 5000 rfl
  have hs : Reachable (0 : Int) { workers := [], closed := false, calls := [.timedOut] } :=
    Relation.ReflTransGen.tail (Relation.ReflTransGen.single t1) t2
  have h := zero_worker_degeneracy
    ⟨"/usr/local/bin/wordsmith", "/etc/wbot/index.txt", 0, 5000, 4000⟩
    (some ⟨0o755, 0, 0⟩)
    { workers := [], closed := false, calls := [.timedOut] }
    (by decide) rfl hs
  exact ⟨h.1, h.2 0 .timedOut rfl⟩

theorem validateExec_ok_iff (cfg : BotConfig) (stat : Option FileInfo) :
    cfg.validateExec stat = .ok () ↔
    ∃ fi, stat = some fi ∧ fi.isRegular = true ∧
      (fi.mode &&& 0o755 == fi.mode) = true ∧ fi.uid = 0 ∧ fi.gid = 0 := by
  cases stat with
  | none => simp [BotConfig.validateExec]
  | some fi =>
    rw [BotConfig.validateExec]
    constructor
    · intro h
      split_ifs at h with ha hb hc
      refine ⟨fi, rfl, ?_, ?_, ?_, ?_⟩
      · simpa using ha
      · simpa using hb
      · simp at hc
        exact hc.1
      · simp at hc
        exact hc.2
    · rintro ⟨fi', hfi, hreg, hmask, hu, hg⟩
      cases Option.some_inj.mp hfi
      rw [hreg, hmask]
      simp [hu, hg]

/-- C5: `NewBot` succeeds if and only if the executable stats, is a regular
file, has no mode bit outside `0o755` (every set bit of the file mode is a bit
of `0o755`, which excludes group/world-write and the setuid/setgid/sticky
bits), and is owned by uid 0 and gid 0; on success the returned Bot carries
the config and one worker per configured concurrent user. -/
theorem newBot_trust_gate (cfg : BotConfig) (stat : Option FileInfo) :
    (∃ b, NewBot cfg stat = .ok b) ↔
    ∃ fi, stat = some fi ∧ fi.isRegular = true ∧
      (∀ k, fi.mode.testBit k = true → (0o755 : Nat).testBit k = true) ∧
      fi.uid = 0 ∧ fi.gid = 0 := by
  constructor
  · rintro ⟨b, hb⟩
    cases hve : cfg.validateExec stat with
    | error e => rw [NewBot, hve] at hb; cases hb
    | ok u =>
      cases u
      obtain ⟨fi, hstat, hreg, hmask, hu, hg⟩ := (validateExec_ok_iff cfg stat).mp hve
      exact ⟨fi, hstat, hreg, (and_mask_eq_iff fi.mode 0o755).mp hmask, hu, hg⟩
  · rintro ⟨fi, hstat, hreg, hbits, hu, hg⟩
    have hve : cfg.validateExec stat = .ok () :=
      (validateExec_ok_iff cfg stat).mpr
        ⟨fi, hstat, hreg, (and_mask_eq_iff fi.mode 0o755).mpr hbits, hu, hg⟩
    exact ⟨_, by rw [NewBot, hve]⟩

end Wbot
